import Mathlib

/-!
Verification of the request/response/history core of `ui/main_window.py`
(api-tester-desktop).

The Python module manipulates JSON data through `json.loads` / `json.dumps`
(default separators, `ensure_ascii=False` for storage).  The embedding below
models the Python value domain reachable in this program as the inductive
`Json` type: Python `None` is `Json.null`, a parsed JSON string and a plain
`str` are the same Python value and are both `Json.str`, and so on.  Numbers
are modelled as integers; Python additionally parses floating point literals
and the constants `NaN`/`Infinity`, which no claim here depends on and which
are outside the modelled fragment.  Lone UTF-16 surrogates (which Python
strings can hold but Lean `Char` cannot) are likewise outside the modelled
fragment.  Everything else — escape sequences, whitespace, the leading-zero
rule, rejection of trailing input — follows Python's `json` module.
-/

set_option maxHeartbeats 1600000

namespace ApiTester

/-- JSON values, i.e. the Python value domain of `json.loads` in the program
(numbers restricted to integers, see the header comment). -/
inductive Json where
  | null : Json
  | bool (b : Bool) : Json
  | num (n : Int) : Json
  | str (s : String) : Json
  | arr (elems : List Json) : Json
  | obj (mems : List (String × Json)) : Json

/-- JSON whitespace, as in Python's `json.decoder.WHITESPACE`. -/
def isWs (c : Char) : Bool := c = ' ' || c = '\t' || c = '\n' || c = '\r'

/-- Skip leading JSON whitespace. -/
def skipWs : List Char → List Char
  | [] => []
  | c :: cs => if isWs c then skipWs cs else c :: cs

/-- The decimal digit character for `d < 10`. -/
def digitChar (d : Nat) : Char := Char.ofNat (48 + d)

/-- Lowercase hexadecimal digit character for `d < 16` (Python's `'%04x'`). -/
def hexChar (d : Nat) : Char :=
  if d < 10 then Char.ofNat (48 + d) else Char.ofNat (87 + d)

/-- Value of a hexadecimal digit character, if it is one. -/
def hexVal (c : Char) : Option Nat :=
  if 48 ≤ c.toNat ∧ c.toNat ≤ 57 then some (c.toNat - 48)
  else if 97 ≤ c.toNat ∧ c.toNat ≤ 102 then some (c.toNat - 87)
  else if 65 ≤ c.toNat ∧ c.toNat ≤ 70 then some (c.toNat - 55)
  else none

/-- Decimal digits of `n`, most significant first; fuelled so that it reduces
in the kernel.  `natCharsAux (n+1) n` always has enough fuel. -/
def natCharsAux : Nat → Nat → List Char
  | 0, _ => []
  | fuel + 1, n =>
    if n < 10 then [digitChar n]
    else natCharsAux fuel (n / 10) ++ [digitChar (n % 10)]

/-- Decimal representation of a natural number, as Python's `str`. -/
def natChars (n : Nat) : List Char := natCharsAux (n + 1) n

/-- Decimal representation of an integer, as Python's `str`/`json.dumps`. -/
def intChars : Int → List Char
  | Int.ofNat m => natChars m
  | Int.negSucc m => '-' :: natChars (m + 1)

/-- Escape of one character inside a JSON string, following
`json.encoder.ESCAPE_DCT` with `ensure_ascii=False`: only the quote, the
backslash and control characters are escaped. -/
def escapeChar (c : Char) : List Char :=
  if c = '"' then ['\\', '"']
  else if c = '\\' then ['\\', '\\']
  else if c = Char.ofNat 8 then ['\\', 'b']
  else if c = Char.ofNat 12 then ['\\', 'f']
  else if c = '\n' then ['\\', 'n']
  else if c = '\r' then ['\\', 'r']
  else if c = '\t' then ['\\', 't']
  else if c.toNat < 32 then
    ['\\', 'u', '0', '0', hexChar (c.toNat / 16), hexChar (c.toNat % 16)]
  else [c]

/-- Escaped body of a JSON string. -/
def escString (l : List Char) : List Char := (l.map escapeChar).flatten

/-- A serialized object key together with Python's default `": "` key
separator. -/
def keyChars (k : String) : List Char :=
  '"' :: (escString k.data ++ '"' :: ':' :: ' ' :: [])

mutual

/-- Serialization of a JSON value: Python's `json.dumps(v, ensure_ascii=False)`
with the default separators `(", ", ": ")`. -/
def dumpVal : Json → List Char
  | Json.null => ['n', 'u', 'l', 'l']
  | Json.bool true => ['t', 'r', 'u', 'e']
  | Json.bool false => ['f', 'a', 'l', 's', 'e']
  | Json.num n => intChars n
  | Json.str s => '"' :: (escString s.data ++ ['"'])
  | Json.arr l => '[' :: (dumpArr l ++ [']'])
  | Json.obj ms => '{' :: (dumpObj ms ++ ['}'])

/-- Serialization of the comma-separated items of a JSON array. -/
def dumpArr : List Json → List Char
  | [] => []
  | [v] => dumpVal v
  | v :: vs => dumpVal v ++ ',' :: ' ' :: dumpArr vs

/-- Serialization of the comma-separated members of a JSON object. -/
def dumpObj : List (String × Json) → List Char
  | [] => []
  | [(k, v)] => keyChars k ++ dumpVal v
  | (k, v) :: ms => keyChars k ++ (dumpVal v ++ ',' :: ' ' :: dumpObj ms)

end

/-- `json.dumps(v, ensure_ascii=False)` as a string. -/
def Json.dumps (v : Json) : String := String.mk (dumpVal v)

/-- Combine four hexadecimal digit characters into a code point. -/
def parseHex4 (a b c d : Char) : Option Nat :=
  match hexVal a, hexVal b, hexVal c, hexVal d with
  | some x, some y, some z, some w => some (((x * 16 + y) * 16 + z) * 16 + w)
  | _, _, _, _ => none

/-- Decode one escape sequence (the input starts just after a backslash),
following Python's strict `scanstring`: the escapes
`\" \\ \/ \b \f \n \r \t \uXXXX` are recognised, and a `\uXXXX` high
surrogate must be completed by a low one (Python would keep a lone
surrogate, which Lean `Char` cannot represent).  Returns the decoded
character and the remaining input. -/
def unescapeStep : List Char → Option (Char × List Char)
  | '"' :: cs => some ('"', cs)
  | '\\' :: cs => some ('\\', cs)
  | '/' :: cs => some ('/', cs)
  | 'b' :: cs => some (Char.ofNat 8, cs)
  | 'f' :: cs => some (Char.ofNat 12, cs)
  | 'n' :: cs => some ('\n', cs)
  | 'r' :: cs => some ('\r', cs)
  | 't' :: cs => some ('\t', cs)
  | 'u' :: a :: b :: c :: d :: cs =>
    (parseHex4 a b c d).bind (fun n =>
      if n < 0xD800 ∨ 0xDFFF < n then some (Char.ofNat n, cs)
      else if n ≤ 0xDBFF then
        match cs with
        | '\\' :: 'u' :: a2 :: b2 :: c2 :: d2 :: cs2 =>
          (parseHex4 a2 b2 c2 d2).bind (fun m =>
            if 0xDC00 ≤ m ∧ m ≤ 0xDFFF then
              some (Char.ofNat (0x10000 + (n - 0xD800) * 0x400 + (m - 0xDC00)), cs2)
            else none)
        | _ => none
      else none)
  | _ => none

/-- Body of a JSON string after the opening quote, following Python's strict
`scanstring`: unescaped control characters are rejected and escapes are
decoded by `unescapeStep`.  Returns the decoded characters and the input
after the closing quote.  The fuel argument only bounds the recursion:
each step consumes at least one input character, so fuel exceeding the
input length (as all callers here supply) never runs out. -/
def parseStrBody : Nat → List Char → Option (List Char × List Char)
  | 0, _ => none
  | _ + 1, [] => none
  | fuel + 1, c :: cs =>
    if c = '"' then some ([], cs)
    else if c = '\\' then
      (unescapeStep cs).bind (fun q =>
        (parseStrBody fuel q.2).map (fun p => (q.1 :: p.1, p.2)))
    else if c.toNat < 32 then none
    else (parseStrBody fuel cs).map (fun p => (c :: p.1, p.2))

/-- Greedily consume decimal digits onto an accumulator (the digits part of
Python's `NUMBER_RE`). -/
def parseDigits : List Char → Nat → Nat × List Char
  | [], acc => (acc, [])
  | c :: cs, acc =>
    if c.isDigit then parseDigits cs (acc * 10 + (c.toNat - 48))
    else (acc, c :: cs)

/-- After an integer literal, Python's `NUMBER_RE` would continue into a
fraction or exponent; floats are outside the modelled fragment, so such
input is rejected rather than parsed. -/
def noFloatNext : List Char → Bool
  | [] => true
  | c :: _ => !(c = '.' || c = 'e' || c = 'E')

/-- An unsigned JSON integer literal: `0 | [1-9][0-9]*`.  Like Python's
regex, a leading `0` ends the literal (so `05` leaves `5` unconsumed and the
caller's delimiter check rejects it, as Python does). -/
def parseUNum : List Char → Option (Nat × List Char)
  | [] => none
  | c :: cs =>
    if c = '0' then (if noFloatNext cs then some (0, cs) else none)
    else if c.isDigit then
      let p := parseDigits (c :: cs) 0
      if noFloatNext p.2 then some p else none
    else none

/-- A signed JSON integer literal. -/
def parseNum : List Char → Option (Int × List Char)
  | [] => none
  | c :: cs =>
    if c = '-' then (parseUNum cs).map (fun p => (-(p.1 : Int), p.2))
    else (parseUNum (c :: cs)).map (fun p => ((p.1 : Int), p.2))

mutual

/-- One JSON value, preceded by optional whitespace, following Python's
`json.scanner.py_make_scanner`; returns the value and the remaining input.
The fuel argument only bounds the recursion; `lengthFuelSufficient`-style
reasoning below shows the fuel chosen by `Json.parse` never runs out on
serializer output. -/
def parseVal : Nat → List Char → Option (Json × List Char)
  | 0, _ => none
  | fuel + 1, s =>
    match skipWs s with
    | [] => none
    | c :: cs =>
      if c = '{' then
        match skipWs cs with
        | [] => none
        | c2 :: cs2 =>
          if c2 = '}' then some (Json.obj [], cs2)
          else (parseMembers fuel (c2 :: cs2)).map (fun p => (Json.obj p.1, p.2))
      else if c = '[' then
        match skipWs cs with
        | [] => none
        | c2 :: cs2 =>
          if c2 = ']' then some (Json.arr [], cs2)
          else (parseItems fuel (c2 :: cs2)).map (fun p => (Json.arr p.1, p.2))
      else if c = '"' then
        (parseStrBody (cs.length + 1) cs).map (fun p => (Json.str (String.mk p.1), p.2))
      else if c = 't' then
        match cs with
        | 'r' :: 'u' :: 'e' :: rest => some (Json.bool true, rest)
        | _ => none
      else if c = 'f' then
        match cs with
        | 'a' :: 'l' :: 's' :: 'e' :: rest => some (Json.bool false, rest)
        | _ => none
      else if c = 'n' then
        match cs with
        | 'u' :: 'l' :: 'l' :: rest => some (Json.null, rest)
        | _ => none
      else (parseNum (c :: cs)).map (fun p => (Json.num p.1, p.2))

/-- One or more comma-separated array items up to the closing bracket. -/
def parseItems : Nat → List Char → Option (List Json × List Char)
  | 0, _ => none
  | fuel + 1, s =>
    match parseVal fuel s with
    | none => none
    | some (v, r1) =>
      match skipWs r1 with
      | [] => none
      | c :: r2 =>
        if c = ',' then (parseItems fuel r2).map (fun p => (v :: p.1, p.2))
        else if c = ']' then some ([v], r2)
        else none

/-- One or more comma-separated object members up to the closing brace. -/
def parseMembers : Nat → List Char → Option (List (String × Json) × List Char)
  | 0, _ => none
  | fuel + 1, s =>
    match skipWs s with
    | [] => none
    | c :: cs =>
      if c = '"' then
        match parseStrBody (cs.length + 1) cs with
        | none => none
        | some (k, r1) =>
          match skipWs r1 with
          | [] => none
          | c2 :: r2 =>
            if c2 = ':' then
              match parseVal fuel r2 with
              | none => none
              | some (v, r3) =>
                match skipWs r3 with
                | [] => none
                | c3 :: r4 =>
                  if c3 = ',' then
                    (parseMembers fuel r4).map (fun p => ((String.mk k, v) :: p.1, p.2))
                  else if c3 = '}' then some ([(String.mk k, v)], r4)
                  else none
            else none
      else none

end

/-- Python's `json.loads`, restricted to the modelled fragment: parse one
value, then require only whitespace to the end of the input.  `none` is a
raised `JSONDecodeError`. -/
def Json.parse (s : String) : Option Json :=
  match parseVal (s.data.length + 1) s.data with
  | some (v, rest) => if (skipWs rest).isEmpty then some v else none
  | none => none

/-- Characters that may legally follow a serialized value inside serializer
output: a separator, a closing bracket, or the end of the input. -/
def stopOk : List Char → Bool
  | [] => true
  | c :: _ => c = ',' || c = ']' || c = '}'

/-- Head of a list is not a digit. -/
def notDigitStart : List Char → Bool
  | [] => true
  | c :: _ => !c.isDigit

mutual

/-- Fuel needed by `parseVal` on serializer output for this value. -/
def jfuel : Json → Nat
  | Json.null => 1
  | Json.bool _ => 1
  | Json.num _ => 1
  | Json.str _ => 1
  | Json.arr l => 1 + lfuel l
  | Json.obj ms => 1 + mfuel ms

/-- Fuel needed by `parseItems` on serializer output for these items. -/
def lfuel : List Json → Nat
  | [] => 0
  | v :: vs => 1 + max (jfuel v) (lfuel vs)

/-- Fuel needed by `parseMembers` on serializer output for these members. -/
def mfuel : List (String × Json) → Nat
  | [] => 0
  | (_, v) :: ms => 1 + max (jfuel v) (mfuel ms)

end

/-! ### The application model: `ui/main_window.py` -/

/-- Python `str.strip()`, restricted to ASCII whitespace (Python also strips
other Unicode whitespace, on which no claim depends). -/
def pyWsChar (c : Char) : Bool :=
  c = ' ' || c = '\t' || c = '\n' || c = '\r' || c = Char.ofNat 11 || c = Char.ofNat 12

/-- Python `str.strip()`. -/
def pyStrip (s : String) : String :=
  String.mk (((s.data.dropWhile pyWsChar).reverse.dropWhile pyWsChar).reverse)

/-- The four HTTP methods offered by the method menu (already uppercase, so
`.upper()` at line 361 is the identity on them). -/
inductive Method where
  | GET : Method
  | POST : Method
  | PUT : Method
  | DELETE : Method
deriving DecidableEq

/-- `try_json_load` (lines 133–139): falsy input comes back as `""`,
otherwise the stored text is opportunistically re-parsed as JSON, falling
back to the raw string. -/
def try_json_load (s : String) : Json :=
  if s = "" then Json.str ""
  else
    match Json.parse s with
    | some v => v
    | none => Json.str s

/-- A history entry as built in `_send_request_thread` (lines 415–423).
`headers` and `body` are the Python values put into the dict (`body` is
`body_for_req`: `None`, a parsed JSON value, or a raw string — all are
`Json` under this embedding).  `response_time` is a float in Python
(`round(elapsed, 3)`); no claim depends on its fractional part, so it is
carried as an integer. -/
structure Entry where
  method : Method
  url : String
  headers : Json
  body : Json
  status : Int
  response_time : Int
  timestamp : String

/-- The `body` column text computed in `save_history_entry` (line 80):
`json.dumps(entry["body"], ensure_ascii=False)` when the body is a dict or
list, else Python `str(entry["body"])`. -/
def storedBody : Json → String
  | Json.arr l => Json.dumps (Json.arr l)
  | Json.obj ms => Json.dumps (Json.obj ms)
  | Json.null => "None"
  | Json.bool true => "True"
  | Json.bool false => "False"
  | Json.num n => String.mk (intChars n)
  | Json.str s => s

/-- One row of the `history` table (line 55): all of `headers` and `body`
are TEXT columns. -/
structure Row where
  id : Nat
  method : Method
  url : String
  headers : String
  body : String
  status : Int
  response_time : Int
  timestamp : String

/-- An entry as reconstructed by the SQLite branch of `load_history`
(lines 113–123). -/
structure LoadedEntry where
  id : Nat
  method : Method
  url : String
  headers : Json
  body : Json
  status : Int
  response_time : Int
  timestamp : String

/-- State of the SQLite backend: the database file may be absent, present
without the `history` table (`sqlite3.connect` creates an empty file even
when a later statement fails), or initialized.  `nextId` models the
monotone AUTOINCREMENT counter. -/
inductive SqliteDB where
  | missing : SqliteDB
  | fileNoTable : SqliteDB
  | store (nextId : Nat) (rows : List Row) : SqliteDB

/-- `init_db` (lines 50–68): idempotently ensures the table exists. -/
def init_db : SqliteDB → SqliteDB
  | SqliteDB.missing => SqliteDB.store 1 []
  | SqliteDB.fileNoTable => SqliteDB.store 1 []
  | SqliteDB.store n rows => SqliteDB.store n rows

/-- The row inserted by `save_history_entry` (lines 76–84). -/
def mkRow (id : Nat) (e : Entry) : Row :=
  { id := id, method := e.method, url := e.url,
    headers := Json.dumps e.headers, body := storedBody e.body,
    status := e.status, response_time := e.response_time,
    timestamp := e.timestamp }

/-- SQLite branch of `save_history_entry` (lines 73–86).  On a missing or
table-less database the INSERT raises; the exception is caught and logged
(lines 99–100) and the connect has created the file. -/
def save_history_sqlite : SqliteDB → Entry → SqliteDB
  | SqliteDB.missing, _ => SqliteDB.fileNoTable
  | SqliteDB.fileNoTable, _ => SqliteDB.fileNoTable
  | SqliteDB.store n rows, e => SqliteDB.store (n + 1) (rows ++ [mkRow n e])

/-- `json.loads(r[3]) if r[3] else {}` (line 118); `none` is a raised
`JSONDecodeError`. -/
def rowHeadersVal (s : String) : Option Json :=
  if s = "" then some (Json.obj []) else Json.parse s

/-- The dict built for one row (lines 114–123). -/
def rowEntry (r : Row) (h : Json) : LoadedEntry :=
  { id := r.id, method := r.method, url := r.url, headers := h,
    body := try_json_load r.body, status := r.status,
    response_time := r.response_time, timestamp := r.timestamp }

/-- The `for r in rows` loop (lines 113–123): an exception while decoding a
row's headers propagates to the outer handler, which returns the items
accumulated so far (lines 129–131). -/
def loadRows : List Row → List LoadedEntry
  | [] => []
  | r :: rs =>
    match rowHeadersVal r.headers with
    | some h => rowEntry r h :: loadRows rs
    | none => []

/-- SQLite branch of `load_history` (lines 105–123): `[]` when the file is
absent; `SELECT ... ORDER BY id DESC LIMIT n` is `rows.reverse.take n`
because ids are assigned in increasing insertion order; a failing SELECT
(no table) is caught, returning `[]`. -/
def load_history_sqlite (db : SqliteDB) (n : Nat) : List LoadedEntry :=
  match db with
  | SqliteDB.missing => []
  | SqliteDB.fileNoTable => []
  | SqliteDB.store _ rows => loadRows ((rows.reverse).take n)

/-- SQLite branch of `clear_history_storage` (lines 143–149): `DELETE FROM
history` empties the rows (the AUTOINCREMENT counter survives); nothing
happens when the file is absent, and a failing DELETE is caught. -/
def clear_history_sqlite : SqliteDB → SqliteDB
  | SqliteDB.missing => SqliteDB.missing
  | SqliteDB.fileNoTable => SqliteDB.fileNoTable
  | SqliteDB.store n _ => SqliteDB.store n []

/-- Python `l[-n:]`: for `n ≥ 1` the last `min n (length l)` elements; since
`-0 == 0`, `n = 0` yields the whole list. -/
def pyTakeLast {α : Type} (l : List α) (n : Nat) : List α :=
  if n = 0 then l else (l.reverse.take n).reverse

/-- Flat-file branch of `save_history_entry` (lines 87–98), with the file
contents as the state (`none`: the file does not exist).  Unparseable
contents reset `data` to `[]` (lines 91–94); parseable non-list contents
make `data.append(entry)` raise `AttributeError`, which the outer handler
catches, leaving the file unchanged. -/
def save_history_json (file : Option String) (e : Json) : Option String :=
  match file with
  | none => some (Json.dumps (Json.arr (pyTakeLast [e] 200)))
  | some s =>
    match Json.parse s with
    | some (Json.arr data) => some (Json.dumps (Json.arr (pyTakeLast (data ++ [e]) 200)))
    | some _ => some s
    | none => some (Json.dumps (Json.arr (pyTakeLast [e] 200)))

/-- Flat-file branch of `load_history` (lines 124–128): `[]` when the file
does not exist; `list(reversed(data[-n:]))` on the parsed contents.  A
parsed top-level string is sliceable and reversible in Python, giving a
list of one-character strings; any other non-list value makes the slice
raise, which the handler turns into `[]`, as it does a parse failure. -/
def load_history_json (file : Option String) (n : Nat) : List Json :=
  match file with
  | none => []
  | some s =>
    match Json.parse s with
    | some (Json.arr data) => (pyTakeLast data n).reverse
    | some (Json.str t) =>
      ((pyTakeLast t.data n).reverse).map (fun c => Json.str (String.mk [c]))
    | _ => []

/-- Flat-file branch of `clear_history_storage` (lines 150–152). -/
def clear_history_json : Option String → Option String
  | none => none
  | some _ => some "[]"

/-- The method name string stored in history. -/
def methodStr : Method → String
  | Method.GET => "GET"
  | Method.POST => "POST"
  | Method.PUT => "PUT"
  | Method.DELETE => "DELETE"

/-- The entry dict as appended to the flat-file JSON array (lines 95,
415–423), in the dict's insertion order. -/
def entryJson (e : Entry) : Json :=
  Json.obj [("method", Json.str (methodStr e.method)),
    ("url", Json.str e.url), ("headers", e.headers), ("body", e.body),
    ("status", Json.num e.status), ("response_time", Json.num e.response_time),
    ("timestamp", Json.str e.timestamp)]

/-- `body_for_req` (lines 381–386): `None` for an empty editor, the parsed
JSON value when the text parses, else the raw text. -/
def bodyForReq (body_input : String) : Json :=
  if body_input = "" then Json.null
  else
    match Json.parse body_input with
    | some v => v
    | none => Json.str body_input

/-- How the body reaches `requests.request` (lines 392–399): GET/DELETE pass
neither `data=` nor `json=`; POST/PUT pass `json=` for a dict or list and
`data=` otherwise. -/
inductive BodyArg where
  | noBody : BodyArg
  | jsonArg (v : Json) : BodyArg
  | dataArg (v : Json) : BodyArg

/-- The dispatch decision of lines 392–399. -/
def dispatchBody (m : Method) (b : Json) : BodyArg :=
  match m with
  | Method.GET => BodyArg.noBody
  | Method.DELETE => BodyArg.noBody
  | _ =>
    match b with
    | Json.obj ms => BodyArg.jsonArg (Json.obj ms)
    | Json.arr l => BodyArg.jsonArg (Json.arr l)
    | v => BodyArg.dataArg v

/-- The bytes put on the wire by `requests` for each body argument:
no body for GET/DELETE and for `data=None`; `json=` serializes the value
(requests uses `json.dumps` with default separators; its default
`ensure_ascii=True` writes non-ASCII characters as `\uXXXX` escapes of the
same JSON value, a representation difference the claims do not reach);
`data=<str>` sends the string itself.  `data=` with a bool or int is not a
str/bytes/iterable and raises in the transport stack, so it yields no
payload string (`none`). -/
def payloadOf : BodyArg → Option String
  | BodyArg.noBody => some ""
  | BodyArg.jsonArg v => some (Json.dumps v)
  | BodyArg.dataArg Json.null => some ""
  | BodyArg.dataArg (Json.str s) => some s
  | BodyArg.dataArg _ => none

/-- The transmitted request payload as a function of method and (stripped)
body editor content. -/
def transmittedPayload (m : Method) (body_input : String) : Option String :=
  payloadOf (dispatchBody m (bodyForReq body_input))

/-- The two ways header validation fails (lines 369–378): `json.loads`
raised (its message is reported), or the parsed value is not a dict
(`ValueError("Headers must be a JSON object")`).  Both are shown as
"Invalid headers JSON" with `str(e)` and abort the request. -/
inductive HdrError where
  | parseFailure : HdrError
  | notObject : HdrError
deriving DecidableEq

/-- Header validation (lines 369–378): empty input yields `{}`; otherwise
the input must parse as a JSON object. -/
def parseHeadersInput (s : String) : Except HdrError (List (String × Json)) :=
  if s = "" then Except.ok []
  else
    match Json.parse s with
    | some (Json.obj kvs) => Except.ok kvs
    | some _ => Except.error HdrError.notObject
    | none => Except.error HdrError.parseFailure

/-- What one `requests.request` call receives (line 392–399). -/
structure RequestCall where
  method : Method
  url : String
  headers : List (String × Json)
  bodyArg : BodyArg

/-- A transport-level response: a status line was received (any code). -/
structure HttpResp where
  status : Int
  text : String

/-- What the user sees at the end of `_send_request_thread`. -/
inductive Outcome where
  | missingUrl : Outcome
  | invalidHeaders (e : HdrError) : Outcome
  | transportError (msg : String) : Outcome
  | success (status : Int) : Outcome

/-- Observable effects of one `_send_request_thread` run: the outcome, the
`requests.request` calls attempted (the trace), and the history entry
passed to `save_history_entry`, if any. -/
structure SendResult where
  outcome : Outcome
  attempts : List RequestCall
  saved : Option Entry

/-- `_send_request_thread` (lines 359–433) over a transport oracle:
`Except.error` is a raised `requests.exceptions.RequestException`.
`timestamp` and `elapsedMs` stand for the wall clock reads. -/
def sendRequestThread (method : Method) (urlRaw hdrRaw bodyRaw : String)
    (timestamp : String) (elapsedMs : Int)
    (transport : RequestCall → Except String HttpResp) : SendResult :=
  let url := pyStrip urlRaw
  let hdr_input := pyStrip hdrRaw
  let body_input := pyStrip bodyRaw
  if url = "" then
    { outcome := Outcome.missingUrl, attempts := [], saved := none }
  else
    match parseHeadersInput hdr_input with
    | Except.error e =>
      { outcome := Outcome.invalidHeaders e, attempts := [], saved := none }
    | Except.ok headers =>
      let body_for_req := bodyForReq body_input
      let call : RequestCall :=
        { method := method, url := url, headers := headers,
          bodyArg := dispatchBody method body_for_req }
      match transport call with
      | Except.error msg =>
        { outcome := Outcome.transportError msg, attempts := [call], saved := none }
      | Except.ok resp =>
        { outcome := Outcome.success resp.status, attempts := [call],
          saved := some (Entry.mk method url (Json.obj headers) body_for_req
            resp.status elapsedMs timestamp) }

/-! ### Roundtrip: the parser inverts the serializer -/


theorem skipWs_cons_not_ws {c : Char} {t : List Char} (h : isWs c = false) :
    skipWs (c :: t) = c :: t := by
  simp [skipWs, h]

theorem digitChar_isDigit : ∀ d, d < 10 → (digitChar d).isDigit = true := by decide

theorem digitChar_toNat : ∀ d, d < 10 → (digitChar d).toNat = 48 + d := by decide

theorem digitChar_ne_zero : ∀ d, d < 10 → d ≠ 0 → digitChar d ≠ '0' := by decide

theorem natCharsAux_congr (n : Nat) : ∀ f1 f2, n < f1 → n < f2 →
    natCharsAux f1 n = natCharsAux f2 n := by
  induction n using Nat.strong_induction_on with
  | _ n ih =>
    intro f1 f2 h1 h2
    match f1, f2 with
    | a + 1, b + 1 =>
      simp only [natCharsAux]
      by_cases h : n < 10
      · simp [h]
      · simp only [if_neg h]
        have hd : n / 10 < n := Nat.div_lt_self (by omega) (by omega)
        rw [ih (n / 10) hd a b (by omega) (by omega)]

/-- Unfolding equation for `natChars`. -/
theorem natChars_eq (n : Nat) :
    natChars n = if n < 10 then [digitChar n]
      else natChars (n / 10) ++ [digitChar (n % 10)] := by
  show natCharsAux (n + 1) n = _
  by_cases h : n < 10
  · simp [natCharsAux, h]
  · have hd : n / 10 < n := Nat.div_lt_self (by omega) (by omega)
    simp only [natCharsAux, if_neg h]
    rw [natCharsAux_congr (n / 10) n (n / 10 + 1) (by omega) (by omega)]
    rfl

theorem natChars_ne_nil (n : Nat) : natChars n ≠ [] := by
  rw [natChars_eq]
  by_cases h : n < 10 <;> simp [h]

theorem natChars_all_digits (n : Nat) : ∀ c ∈ natChars n, c.isDigit = true := by
  induction n using Nat.strong_induction_on with
  | _ n ih =>
    rw [natChars_eq]
    by_cases h : n < 10
    · simpa [h] using digitChar_isDigit n h
    · have hd : n / 10 < n := Nat.div_lt_self (by omega) (by omega)
      simp only [if_neg h, List.mem_append, List.mem_singleton]
      rintro c (hc | rfl)
      · exact ih (n / 10) hd c hc
      · exact digitChar_isDigit _ (Nat.mod_lt _ (by omega))

theorem natChars_head_pos (n : Nat) (hn : n ≠ 0) :
    ∃ c t, natChars n = c :: t ∧ c.isDigit = true ∧ c ≠ '0' := by
  induction n using Nat.strong_induction_on with
  | _ n ih =>
    rw [natChars_eq]
    by_cases h : n < 10
    · exact ⟨digitChar n, [], by simp [h], digitChar_isDigit n h,
        digitChar_ne_zero n h hn⟩
    · have hd : n / 10 < n := Nat.div_lt_self (by omega) (by omega)
      obtain ⟨c, t, heq, hdig, hz⟩ := ih (n / 10) hd (by omega)
      exact ⟨c, t ++ [digitChar (n % 10)], by simp [h, heq], hdig, hz⟩


theorem parseDigits_spec : ∀ (ds : List Char) (rest : List Char) (acc : Nat),
    (∀ c ∈ ds, c.isDigit = true) → notDigitStart rest = true →
    parseDigits (ds ++ rest) acc =
      (List.foldl (fun a c => a * 10 + (c.toNat - 48)) acc ds, rest)
  | [], rest, acc, _, hrest => by
    cases rest with
    | nil => rfl
    | cons c t =>
      simp only [notDigitStart, Bool.not_eq_true'] at hrest
      simp [parseDigits, hrest]
  | d :: ds, rest, acc, hds, hrest => by
    have hd : d.isDigit = true := hds d (by simp)
    have ih := parseDigits_spec ds rest (acc * 10 + (d.toNat - 48))
      (fun c hc => hds c (by simp [hc])) hrest
    simp only [List.cons_append, parseDigits, if_pos hd, List.foldl_cons, List.append_eq]
    exact ih

theorem foldl_natChars (n : Nat) : ∀ acc,
    List.foldl (fun a c => a * 10 + (c.toNat - 48)) acc (natChars n) =
      acc * 10 ^ (natChars n).length + n := by
  induction n using Nat.strong_induction_on with
  | _ n ih =>
    intro acc
    rw [natChars_eq]
    by_cases h : n < 10
    · simp only [if_pos h, List.foldl_cons, List.foldl_nil, List.length_cons,
        List.length_nil, pow_one, digitChar_toNat n h]
      omega
    · have hd : n / 10 < n := Nat.div_lt_self (by omega) (by omega)
      simp only [if_neg h, List.foldl_append, List.length_append,
        List.foldl_cons, List.foldl_nil, List.length_cons, List.length_nil]
      rw [ih (n / 10) hd acc]
      rw [digitChar_toNat (n % 10) (Nat.mod_lt _ (by omega))]
      have h48 : 48 + n % 10 - 48 = n % 10 := by omega
      rw [h48, pow_succ]
      have hm : n / 10 * 10 + n % 10 = n := by omega
      calc (acc * 10 ^ (natChars (n / 10)).length + n / 10) * 10 + n % 10
          = acc * (10 ^ (natChars (n / 10)).length * 10) + (n / 10 * 10 + n % 10) := by
            ring
        _ = acc * (10 ^ (natChars (n / 10)).length * 10) + n := by rw [hm]

theorem stopOk_cases {c : Char} {t : List Char} (h : stopOk (c :: t) = true) :
    c = ',' ∨ c = ']' ∨ c = '}' := by
  simpa [stopOk, or_assoc] using h

theorem stopOk_notDigitStart {rest : List Char} (h : stopOk rest = true) :
    notDigitStart rest = true := by
  cases rest with
  | nil => rfl
  | cons c t => rcases stopOk_cases h with rfl | rfl | rfl <;> rfl

theorem stopOk_noFloatNext {rest : List Char} (h : stopOk rest = true) :
    noFloatNext rest = true := by
  cases rest with
  | nil => rfl
  | cons c t => rcases stopOk_cases h with rfl | rfl | rfl <;> rfl

theorem parseUNum_natChars (n : Nat) (rest : List Char) (h : stopOk rest = true) :
    parseUNum (natChars n ++ rest) = some (n, rest) := by
  by_cases hn : n = 0
  · subst hn
    have h0 : natChars 0 = ['0'] := by rw [natChars_eq]; rfl
    rw [h0]
    simp [parseUNum, stopOk_noFloatNext h]
  · obtain ⟨c, t, heq, hdig, hz⟩ := natChars_head_pos n hn
    have hds : ∀ x ∈ c :: t, x.isDigit = true := by
      rw [← heq]; exact natChars_all_digits n
    have hval : List.foldl (fun a x => a * 10 + (x.toNat - 48)) 0 (c :: t) = n := by
      have := foldl_natChars n 0
      rw [heq] at this
      simpa using this
    have hpd : parseDigits (c :: (t ++ rest)) 0 = (n, rest) := by
      have := parseDigits_spec (c :: t) rest 0 hds (stopOk_notDigitStart h)
      rw [hval] at this
      simpa using this
    rw [heq]
    show parseUNum (c :: (t ++ rest)) = some (n, rest)
    simp only [parseUNum, if_neg hz, if_pos hdig, hpd, stopOk_noFloatNext h,
      if_pos]

theorem parseNum_intChars (n : Int) (rest : List Char) (h : stopOk rest = true) :
    parseNum (intChars n ++ rest) = some (n, rest) := by
  cases n with
  | ofNat m =>
    have hnn : natChars m ≠ [] := natChars_ne_nil m
    obtain ⟨c, t, heq⟩ : ∃ c t, natChars m = c :: t := by
      cases hm : natChars m with
      | nil => exact absurd hm hnn
      | cons c t => exact ⟨c, t, rfl⟩
    have hdig : c.isDigit = true := natChars_all_digits m c (by rw [heq]; simp)
    have hne : c ≠ '-' := by
      intro hc
      subst hc
      revert hdig
      decide
    show parseNum (natChars m ++ rest) = some ((m : Int), rest)
    rw [heq]
    show parseNum (c :: (t ++ rest)) = some ((m : Int), rest)
    have hu : parseUNum (c :: (t ++ rest)) = some (m, rest) := by
      have := parseUNum_natChars m rest h
      rw [heq] at this
      simpa using this
    simp only [parseNum, if_neg hne, hu]
    rfl
  | negSucc m =>
    show parseNum ('-' :: (natChars (m + 1) ++ rest)) = _
    have hneg : (-((m + 1 : Nat) : Int)) = Int.negSucc m := by
      rw [Int.negSucc_eq]
      push_cast
      ring
    simp [parseNum, parseUNum_natChars (m + 1) rest h]
    omega

theorem hexVal_hexChar : ∀ d, d < 16 → hexVal (hexChar d) = some d := by decide

theorem escString_nil : escString [] = [] := rfl

theorem escString_cons (c : Char) (l : List Char) :
    escString (c :: l) = escapeChar c ++ escString l := by
  simp [escString]

theorem unesc_quote (cs : List Char) : unescapeStep ('"' :: cs) = some ('"', cs) := rfl

theorem unesc_bs (cs : List Char) : unescapeStep ('\\' :: cs) = some ('\\', cs) := rfl

theorem unesc_b (cs : List Char) : unescapeStep ('b' :: cs) = some (Char.ofNat 8, cs) := rfl

theorem unesc_f (cs : List Char) : unescapeStep ('f' :: cs) = some (Char.ofNat 12, cs) := rfl

theorem unesc_n (cs : List Char) : unescapeStep ('n' :: cs) = some ('\n', cs) := rfl

theorem unesc_r (cs : List Char) : unescapeStep ('r' :: cs) = some ('\r', cs) := rfl

theorem unesc_t (cs : List Char) : unescapeStep ('t' :: cs) = some ('\t', cs) := rfl

theorem unesc_u_low (a b c d : Char) (cs : List Char) (n : Nat)
    (hh : parseHex4 a b c d = some n) (hn : n < 0xD800) :
    unescapeStep ('u' :: a :: b :: c :: d :: cs) = some (Char.ofNat n, cs) := by
  show (parseHex4 a b c d).bind _ = _
  rw [hh, Option.some_bind, if_pos (Or.inl hn)]

theorem psb_quote (f : Nat) (cs : List Char) :
    parseStrBody (f + 1) ('"' :: cs) = some ([], cs) := by
  rw [parseStrBody, if_pos rfl]

theorem psb_esc (f : Nat) (cs : List Char) :
    parseStrBody (f + 1) ('\\' :: cs) =
      (unescapeStep cs).bind (fun q =>
        (parseStrBody f q.2).map (fun p => (q.1 :: p.1, p.2))) := by
  rw [parseStrBody, if_neg (by decide), if_pos rfl]

theorem psb_other (f : Nat) (c : Char) (cs : List Char) (h1 : ¬c = '"')
    (h2 : ¬c = '\\') (h3 : ¬c.toNat < 32) :
    parseStrBody (f + 1) (c :: cs) =
      (parseStrBody f cs).map (fun p => (c :: p.1, p.2)) := by
  rw [parseStrBody, if_neg h1, if_neg h2, if_neg h3]

theorem parseStrBody_escString : ∀ (l : List Char) (rest : List Char) (f : Nat),
    l.length < f → parseStrBody f (escString l ++ ('"' :: rest)) = some (l, rest)
  | [], rest, f + 1, _ => by
    rw [escString_nil, List.nil_append, psb_quote]
  | c :: l, rest, f + 1, h => by
    have ih := parseStrBody_escString l rest f (by
      simp only [List.length_cons] at h
      omega)
    rw [escString_cons, List.append_assoc]
    by_cases h1 : c = '"'
    · subst h1
      show parseStrBody (f + 1) ('\\' :: '"' :: (escString l ++ '"' :: rest)) = _
      rw [psb_esc]
      simp only [unesc_quote, Option.some_bind, ih, Option.map_some']
    · by_cases h2 : c = '\\'
      · subst h2
        show parseStrBody (f + 1) ('\\' :: '\\' :: (escString l ++ '"' :: rest)) = _
        rw [psb_esc]
        simp only [unesc_bs, Option.some_bind, ih, Option.map_some']
      · by_cases h3 : c = Char.ofNat 8
        · subst h3
          show parseStrBody (f + 1) ('\\' :: 'b' :: (escString l ++ '"' :: rest)) = _
          rw [psb_esc]
          simp only [unesc_b, Option.some_bind, ih, Option.map_some']
        · by_cases h4 : c = Char.ofNat 12
          · subst h4
            show parseStrBody (f + 1) ('\\' :: 'f' :: (escString l ++ '"' :: rest)) = _
            rw [psb_esc]
            simp only [unesc_f, Option.some_bind, ih, Option.map_some']
          · by_cases h5 : c = '\n'
            · subst h5
              show parseStrBody (f + 1) ('\\' :: 'n' :: (escString l ++ '"' :: rest)) = _
              rw [psb_esc]
              simp only [unesc_n, Option.some_bind, ih, Option.map_some']
            · by_cases h6 : c = '\r'
              · subst h6
                show parseStrBody (f + 1) ('\\' :: 'r' :: (escString l ++ '"' :: rest)) = _
                rw [psb_esc]
                simp only [unesc_r, Option.some_bind, ih, Option.map_some']
              · by_cases h7 : c = '\t'
                · subst h7
                  show parseStrBody (f + 1) ('\\' :: 't' :: (escString l ++ '"' :: rest)) = _
                  rw [psb_esc]
                  simp only [unesc_t, Option.some_bind, ih, Option.map_some']
                · by_cases h8 : c.toNat < 32
                  · have hesc : escapeChar c =
                        ['\\', 'u', '0', '0', hexChar (c.toNat / 16), hexChar (c.toNat % 16)] := by
                      rw [escapeChar]
                      rw [if_neg h1, if_neg h2, if_neg h3, if_neg h4, if_neg h5,
                        if_neg h6, if_neg h7, if_pos h8]
                    rw [hesc]
                    have hh4 : parseHex4 '0' '0' (hexChar (c.toNat / 16)) (hexChar (c.toNat % 16))
                        = some c.toNat := by
                      rw [parseHex4]
                      rw [hexVal_hexChar (c.toNat / 16) (by omega),
                        hexVal_hexChar (c.toNat % 16) (by omega)]
                      show some ((((0 * 16 + 0) * 16 + c.toNat / 16) * 16 + c.toNat % 16)) = _
                      congr 1
                      omega
                    show parseStrBody (f + 1) ('\\' :: 'u' :: '0' :: '0' ::
                      hexChar (c.toNat / 16) :: hexChar (c.toNat % 16) ::
                      (escString l ++ '"' :: rest)) = _
                    rw [psb_esc]
                    rw [unesc_u_low _ _ _ _ _ _ hh4 (by omega)]
                    simp only [Option.some_bind, ih, Option.map_some', Char.ofNat_toNat]
                  · have hesc : escapeChar c = [c] := by
                      rw [escapeChar]
                      rw [if_neg h1, if_neg h2, if_neg h3, if_neg h4, if_neg h5,
                        if_neg h6, if_neg h7, if_neg h8]
                    rw [hesc]
                    show parseStrBody (f + 1) (c :: (escString l ++ '"' :: rest)) = _
                    rw [psb_other f c _ h1 h2 h8, ih]
                    rfl


theorem jfuel_pos (v : Json) : 1 ≤ jfuel v := by
  cases v <;> simp [jfuel]

theorem lfuel_pos (v : Json) (vs : List Json) : 1 ≤ lfuel (v :: vs) := by
  simp [lfuel]

theorem mfuel_pos (m : String × Json) (ms : List (String × Json)) :
    1 ≤ mfuel (m :: ms) := by
  obtain ⟨k, v⟩ := m
  simp [mfuel]

theorem dumpArr_cons_cons (v w : Json) (ws : List Json) :
    dumpArr (v :: w :: ws) = dumpVal v ++ ',' :: ' ' :: dumpArr (w :: ws) := by
  rw [dumpArr]
  simp

theorem dumpObj_cons_cons (k : String) (v : Json) (m2 : String × Json)
    (ms : List (String × Json)) :
    dumpObj ((k, v) :: m2 :: ms) =
      keyChars k ++ (dumpVal v ++ ',' :: ' ' :: dumpObj (m2 :: ms)) := by
  rw [dumpObj]
  simp

theorem escString_length (l : List Char) : l.length ≤ (escString l).length := by
  induction l with
  | nil => simp [escString_nil]
  | cons c l ih =>
    rw [escString_cons, List.length_append, List.length_cons]
    have : 1 ≤ (escapeChar c).length := by
      rw [escapeChar]
      split_ifs <;> simp
    omega

theorem intChars_ne_nil (n : Int) : intChars n ≠ [] := by
  cases n with
  | ofNat m => exact natChars_ne_nil m
  | negSucc m => simp [intChars]

mutual

theorem jfuel_le : ∀ v : Json, jfuel v ≤ (dumpVal v).length
  | Json.null => by simp [jfuel, dumpVal]
  | Json.bool b => by cases b <;> simp [jfuel, dumpVal]
  | Json.num n => by
    have h : intChars n ≠ [] := intChars_ne_nil n
    have : 1 ≤ (intChars n).length := by
      cases hm : intChars n with
      | nil => exact absurd hm h
      | cons c t => simp
    simpa [jfuel, dumpVal] using this
  | Json.str s => by simp [jfuel, dumpVal]
  | Json.arr [] => by simp [jfuel, lfuel, dumpVal, dumpArr]
  | Json.arr (v :: vs) => by
    have h := lfuel_le (v :: vs) (by simp)
    simp only [jfuel, dumpVal, List.length_cons, List.length_append,
      List.length_singleton]
    omega
  | Json.obj [] => by simp [jfuel, mfuel, dumpVal, dumpObj]
  | Json.obj (m :: ms) => by
    have h := mfuel_le (m :: ms) (by simp)
    simp only [jfuel, dumpVal, List.length_cons, List.length_append,
      List.length_singleton]
    omega

theorem lfuel_le : ∀ l : List Json, l ≠ [] → lfuel l ≤ (dumpArr l).length + 1
  | [v], _ => by
    have h := jfuel_le v
    simp only [lfuel, dumpArr]
    omega
  | v :: w :: vs, _ => by
    have h1 := jfuel_le v
    have h2 := lfuel_le (w :: vs) (by simp)
    rw [lfuel, dumpArr_cons_cons]
    simp only [List.length_append, List.length_cons]
    omega

theorem mfuel_le : ∀ ms : List (String × Json), ms ≠ [] →
    mfuel ms ≤ (dumpObj ms).length + 1
  | [(k, v)], _ => by
    have h := jfuel_le v
    simp only [mfuel, dumpObj, List.length_append]
    omega
  | (k, v) :: m2 :: ms, _ => by
    have h1 := jfuel_le v
    have h2 := mfuel_le (m2 :: ms) (by simp)
    rw [mfuel, dumpObj_cons_cons]
    simp only [List.length_append, List.length_cons]
    omega

end

theorem isWs_false_of_isDigit {c : Char} (h : c.isDigit = true) : isWs c = false := by
  cases hw : isWs c with
  | false => rfl
  | true =>
    exfalso
    have hc : c = ' ' ∨ c = '\t' ∨ c = '\n' ∨ c = '\r' := by
      simpa [isWs, or_assoc] using hw
    rcases hc with rfl | rfl | rfl | rfl <;> revert h <;> decide

/-- Facts about digit heads needed to steer the value parser into the number
branch. -/
theorem digit_head_facts {c : Char} (h : c.isDigit = true) :
    isWs c = false ∧ ¬c = '{' ∧ ¬c = '[' ∧ ¬c = '"' ∧ ¬c = 't' ∧ ¬c = 'f' ∧
      ¬c = 'n' ∧ ¬c = ']' :=
  ⟨isWs_false_of_isDigit h,
    by rintro rfl; revert h; decide, by rintro rfl; revert h; decide,
    by rintro rfl; revert h; decide, by rintro rfl; revert h; decide,
    by rintro rfl; revert h; decide, by rintro rfl; revert h; decide,
    by rintro rfl; revert h; decide⟩

theorem intChars_head (n : Int) : ∃ c t, intChars n = c :: t ∧ isWs c = false ∧
    ¬c = '{' ∧ ¬c = '[' ∧ ¬c = '"' ∧ ¬c = 't' ∧ ¬c = 'f' ∧ ¬c = 'n' ∧ ¬c = ']' := by
  cases n with
  | ofNat m =>
    obtain ⟨c, t, heq⟩ : ∃ c t, natChars m = c :: t := by
      cases hm : natChars m with
      | nil => exact absurd hm (natChars_ne_nil m)
      | cons c t => exact ⟨c, t, rfl⟩
    have hdig : c.isDigit = true := natChars_all_digits m c (by rw [heq]; simp)
    obtain ⟨hws, h1, h2, h3, h4, h5, h6, h7⟩ := digit_head_facts hdig
    exact ⟨c, t, heq, hws, h1, h2, h3, h4, h5, h6, h7⟩
  | negSucc m =>
    exact ⟨'-', natChars (m + 1), rfl, by decide, by decide, by decide, by decide,
      by decide, by decide, by decide, by decide⟩

theorem dumpVal_head (v : Json) : ∃ c t, dumpVal v = c :: t ∧ isWs c = false ∧
    ¬c = ']' := by
  cases v with
  | null => exact ⟨'n', _, by rw [dumpVal], by decide, by decide⟩
  | bool b =>
    cases b with
    | true => exact ⟨'t', _, by rw [dumpVal], by decide, by decide⟩
    | false => exact ⟨'f', _, by rw [dumpVal], by decide, by decide⟩
  | num n =>
    obtain ⟨c, t, heq, hws, _, _, _, _, _, _, h7⟩ := intChars_head n
    exact ⟨c, t, by rw [dumpVal, heq], hws, h7⟩
  | str s => exact ⟨'"', _, by rw [dumpVal], by decide, by decide⟩
  | arr l => exact ⟨'[', _, by rw [dumpVal], by decide, by decide⟩
  | obj ms => exact ⟨'{', _, by rw [dumpVal], by decide, by decide⟩

theorem dumpArr_head (v : Json) (vs : List Json) :
    ∃ c t, dumpArr (v :: vs) = c :: t ∧ isWs c = false ∧ ¬c = ']' := by
  obtain ⟨c, t, heq, hws, hrb⟩ := dumpVal_head v
  cases vs with
  | nil => exact ⟨c, t, by rw [dumpArr, heq], hws, hrb⟩
  | cons w ws =>
    exact ⟨c, t ++ ',' :: ' ' :: dumpArr (w :: ws),
      by rw [dumpArr_cons_cons, heq]; rfl, hws, hrb⟩

theorem dumpObj_shape (k : String) (v : Json) (ms : List (String × Json)) :
    ∃ t, dumpObj ((k, v) :: ms) = '"' :: t := by
  cases ms with
  | nil => exact ⟨escString k.data ++ '"' :: ':' :: ' ' :: [] ++ dumpVal v, by
      rw [dumpObj, keyChars]; rfl⟩
  | cons m2 ms =>
    exact ⟨escString k.data ++ '"' :: ':' :: ' ' :: [] ++
      (dumpVal v ++ ',' :: ' ' :: dumpObj (m2 :: ms)),
      by rw [dumpObj_cons_cons, keyChars]; rfl⟩

theorem skipWs_space (s : List Char) : skipWs (' ' :: s) = skipWs s := by
  rw [skipWs, if_pos (by decide)]

theorem parseVal_space (f : Nat) (s : List Char) :
    parseVal f (' ' :: s) = parseVal f s := by
  cases f with
  | zero => rfl
  | succ g =>
    simp only [parseVal]
    rw [skipWs_space]

theorem parseItems_space (f : Nat) (s : List Char) :
    parseItems f (' ' :: s) = parseItems f s := by
  cases f with
  | zero => rfl
  | succ g =>
    simp only [parseItems]
    rw [parseVal_space]

theorem parseMembers_space (f : Nat) (s : List Char) :
    parseMembers f (' ' :: s) = parseMembers f s := by
  cases f with
  | zero => rfl
  | succ g =>
    simp only [parseMembers]
    rw [skipWs_space]

mutual

/-- The value parser inverts the serializer, with any legal continuation. -/
theorem parseVal_dump : ∀ (v : Json) (f : Nat) (rest : List Char),
    jfuel v ≤ f → stopOk rest = true →
    parseVal f (dumpVal v ++ rest) = some (v, rest)
  | Json.null, f, rest => fun hf _ => by
    obtain ⟨g, rfl⟩ : ∃ g, f = g + 1 := ⟨f - 1, by have := jfuel_pos Json.null; omega⟩
    rw [dumpVal]
    simp only [List.cons_append, List.nil_append]
    rw [parseVal, skipWs_cons_not_ws (by decide)]
    rfl
  | Json.bool true, f, rest => fun hf _ => by
    obtain ⟨g, rfl⟩ : ∃ g, f = g + 1 := ⟨f - 1, by have := jfuel_pos (Json.bool true); omega⟩
    rw [dumpVal]
    simp only [List.cons_append, List.nil_append]
    rw [parseVal, skipWs_cons_not_ws (by decide)]
    rfl
  | Json.bool false, f, rest => fun hf _ => by
    obtain ⟨g, rfl⟩ : ∃ g, f = g + 1 := ⟨f - 1, by have := jfuel_pos (Json.bool false); omega⟩
    rw [dumpVal]
    simp only [List.cons_append, List.nil_append]
    rw [parseVal, skipWs_cons_not_ws (by decide)]
    rfl
  | Json.num n, f, rest => fun hf hstop => by
    obtain ⟨g, rfl⟩ : ∃ g, f = g + 1 := ⟨f - 1, by have := jfuel_pos (Json.num n); omega⟩
    obtain ⟨c, t, heq, hws, h1, h2, h3, h4, h5, h6, _⟩ := intChars_head n
    rw [dumpVal, heq]
    simp only [List.cons_append]
    rw [parseVal, skipWs_cons_not_ws hws]
    simp only []
    rw [if_neg h1, if_neg h2, if_neg h3, if_neg h4, if_neg h5, if_neg h6]
    rw [← List.cons_append, ← heq, parseNum_intChars n rest hstop]
    rfl
  | Json.str s, f, rest => fun hf _ => by
    obtain ⟨g, rfl⟩ : ∃ g, f = g + 1 := ⟨f - 1, by have := jfuel_pos (Json.str s); omega⟩
    rw [dumpVal]
    simp only [List.cons_append, List.append_assoc, List.nil_append]
    rw [parseVal, skipWs_cons_not_ws (by decide)]
    simp only []
    rw [if_neg (by decide), if_neg (by decide)]
    simp only [if_true]
    rw [parseStrBody_escString s.data rest
      ((escString s.data ++ '"' :: rest).length + 1)
      (by have := escString_length s.data; simp only [List.length_append]; omega)]
    rfl
  | Json.arr [], f, rest => fun hf _ => by
    obtain ⟨g, rfl⟩ : ∃ g, f = g + 1 := ⟨f - 1, by have := jfuel_pos (Json.arr []); omega⟩
    rw [dumpVal, dumpArr]
    simp only [List.cons_append, List.nil_append]
    rw [parseVal, skipWs_cons_not_ws (by decide)]
    simp only []
    rw [if_neg (by decide)]
    simp only [if_true]
    rw [skipWs_cons_not_ws (by decide)]
    simp only []
    simp only [if_true]
  | Json.arr (v :: vs), f, rest => fun hf hstop => by
    obtain ⟨g, rfl⟩ : ∃ g, f = g + 1 := ⟨f - 1, by
      have := jfuel_pos (Json.arr (v :: vs)); omega⟩
    have hfl : lfuel (v :: vs) ≤ g := by
      rw [jfuel] at hf
      omega
    obtain ⟨c2, t2, heqa, hws2, hrb⟩ := dumpArr_head v vs
    rw [dumpVal]
    simp only [List.cons_append, List.append_assoc, List.nil_append]
    rw [parseVal, skipWs_cons_not_ws (by decide)]
    simp only []
    rw [if_neg (by decide)]
    simp only [if_true]
    rw [heqa]
    simp only [List.cons_append]
    rw [skipWs_cons_not_ws hws2]
    simp only []
    rw [if_neg hrb]
    rw [← List.cons_append, ← heqa]
    rw [parseItems_dump (v :: vs) g rest (by simp) hfl hstop]
    rfl
  | Json.obj [], f, rest => fun hf _ => by
    obtain ⟨g, rfl⟩ : ∃ g, f = g + 1 := ⟨f - 1, by have := jfuel_pos (Json.obj []); omega⟩
    rw [dumpVal, dumpObj]
    simp only [List.cons_append, List.nil_append]
    rw [parseVal, skipWs_cons_not_ws (by decide)]
    simp only []
    simp only [if_true]
    rw [skipWs_cons_not_ws (by decide)]
    simp only []
    simp only [if_true]
  | Json.obj ((k, v) :: ms), f, rest => fun hf hstop => by
    obtain ⟨g, rfl⟩ : ∃ g, f = g + 1 := ⟨f - 1, by
      have := jfuel_pos (Json.obj ((k, v) :: ms)); omega⟩
    have hfm : mfuel ((k, v) :: ms) ≤ g := by
      rw [jfuel] at hf
      omega
    obtain ⟨t2, heqo⟩ := dumpObj_shape k v ms
    rw [dumpVal]
    simp only [List.cons_append, List.append_assoc, List.nil_append]
    rw [parseVal, skipWs_cons_not_ws (by decide)]
    simp only []
    simp only [if_true]
    rw [heqo]
    simp only [List.cons_append]
    rw [skipWs_cons_not_ws (by decide)]
    simp only []
    rw [if_neg (by decide)]
    rw [← List.cons_append, ← heqo]
    rw [parseMembers_dump ((k, v) :: ms) g rest (by simp) hfm hstop]
    rfl

/-- The item parser inverts the serializer on non-empty item lists. -/
theorem parseItems_dump : ∀ (l : List Json) (f : Nat) (rest : List Char),
    l ≠ [] → lfuel l ≤ f → stopOk rest = true →
    parseItems f (dumpArr l ++ ']' :: rest) = some (l, rest)
  | [], _, _ => fun h _ _ => absurd rfl h
  | [v], f, rest => fun _ hf hstop => by
    obtain ⟨g, rfl⟩ : ∃ g, f = g + 1 := ⟨f - 1, by have := lfuel_pos v []; omega⟩
    have hj : jfuel v ≤ g := by
      simp only [lfuel] at hf
      omega
    rw [dumpArr, parseItems]
    rw [parseVal_dump v g (']' :: rest) hj rfl]
    simp only []
    rw [skipWs_cons_not_ws (by decide)]
    simp only []
    rw [if_neg (by decide)]
    simp only [if_true]
  | v :: w :: vs, f, rest => fun _ hf hstop => by
    obtain ⟨g, rfl⟩ : ∃ g, f = g + 1 := ⟨f - 1, by have := lfuel_pos v (w :: vs); omega⟩
    have hj : jfuel v ≤ g := by
      rw [lfuel] at hf
      omega
    have hfl : lfuel (w :: vs) ≤ g := by
      rw [lfuel] at hf
      omega
    rw [dumpArr_cons_cons]
    simp only [List.cons_append, List.append_assoc]
    rw [parseItems]
    rw [parseVal_dump v g (',' :: ' ' :: (dumpArr (w :: vs) ++ ']' :: rest)) hj rfl]
    simp only []
    rw [skipWs_cons_not_ws (by decide)]
    simp only []
    simp only [if_true]
    rw [parseItems_space]
    rw [parseItems_dump (w :: vs) g rest (by simp) hfl hstop]
    rfl

/-- The member parser inverts the serializer on non-empty member lists. -/
theorem parseMembers_dump : ∀ (ms : List (String × Json)) (f : Nat) (rest : List Char),
    ms ≠ [] → mfuel ms ≤ f → stopOk rest = true →
    parseMembers f (dumpObj ms ++ '}' :: rest) = some (ms, rest)
  | [], _, _ => fun h _ _ => absurd rfl h
  | [(k, v)], f, rest => fun _ hf hstop => by
    obtain ⟨g, rfl⟩ : ∃ g, f = g + 1 := ⟨f - 1, by have := mfuel_pos (k, v) []; omega⟩
    have hj : jfuel v ≤ g := by
      simp only [mfuel] at hf
      omega
    rw [dumpObj, keyChars]
    simp only [List.cons_append, List.append_assoc, List.nil_append]
    rw [parseMembers, skipWs_cons_not_ws (by decide)]
    simp only []
    simp only [if_true]
    rw [parseStrBody_escString k.data (':' :: ' ' :: (dumpVal v ++ '}' :: rest)) _
      (by have := escString_length k.data; simp only [List.length_append]; omega)]
    simp only []
    rw [skipWs_cons_not_ws (by decide)]
    simp only []
    simp only [if_true]
    rw [parseVal_space]
    rw [parseVal_dump v g ('}' :: rest) hj rfl]
    simp only []
    rw [skipWs_cons_not_ws (by decide)]
    simp only []
    rw [if_neg (by decide)]
    simp only [if_true]
  | (k, v) :: m2 :: ms, f, rest => fun _ hf hstop => by
    obtain ⟨g, rfl⟩ : ∃ g, f = g + 1 := ⟨f - 1, by have := mfuel_pos (k, v) (m2 :: ms); omega⟩
    have hj : jfuel v ≤ g := by
      rw [mfuel] at hf
      omega
    have hfm : mfuel (m2 :: ms) ≤ g := by
      rw [mfuel] at hf
      omega
    rw [dumpObj_cons_cons, keyChars]
    simp only [List.cons_append, List.append_assoc, List.nil_append]
    rw [parseMembers, skipWs_cons_not_ws (by decide)]
    simp only []
    simp only [if_true]
    rw [parseStrBody_escString k.data
      (':' :: ' ' :: (dumpVal v ++ ',' :: ' ' :: (dumpObj (m2 :: ms) ++ '}' :: rest))) _
      (by have := escString_length k.data; simp only [List.length_append]; omega)]
    simp only []
    rw [skipWs_cons_not_ws (by decide)]
    simp only []
    simp only [if_true]
    rw [parseVal_space]
    rw [parseVal_dump v g (',' :: ' ' :: (dumpObj (m2 :: ms) ++ '}' :: rest)) hj rfl]
    simp only []
    rw [skipWs_cons_not_ws (by decide)]
    simp only []
    simp only [if_true]
    rw [parseMembers_space]
    rw [parseMembers_dump (m2 :: ms) g rest (by simp) hfm hstop]
    rfl

end

/-- Parsing inverts serialization: the core roundtrip property of the Python
`json` module as used by the program. -/
theorem Json.parse_dumps (v : Json) : Json.parse (Json.dumps v) = some v := by
  show Json.parse (String.mk (dumpVal v)) = some v
  rw [Json.parse]
  have hdata : (String.mk (dumpVal v)).data = dumpVal v := rfl
  rw [hdata]
  have hfuel : jfuel v ≤ (dumpVal v).length + 1 := by
    have := jfuel_le v
    omega
  have h := parseVal_dump v ((dumpVal v).length + 1) [] hfuel rfl
  rw [List.append_nil] at h
  rw [h]
  rfl

/-! ### Shared consequences of the roundtrip -/

theorem Json.parse_empty : Json.parse ("") = none := rfl

theorem Json.dumps_ne_empty (v : Json) : Json.dumps v ≠ "" := by
  obtain ⟨c, t, heq, _, _⟩ := dumpVal_head v
  show String.mk (dumpVal v) ≠ ""
  rw [heq]
  intro h
  have h2 := congrArg String.data h
  simp at h2

theorem parse_some_ne_empty {s : String} {v : Json} (h : Json.parse s = some v) :
    ¬s = "" := by
  intro he
  subst he
  rw [Json.parse_empty] at h
  exact Option.noConfusion h

theorem try_json_load_dumps (v : Json) : try_json_load (Json.dumps v) = v := by
  rw [try_json_load, if_neg (Json.dumps_ne_empty v), Json.parse_dumps]

theorem rowHeadersVal_dumps (h : Json) :
    rowHeadersVal (Json.dumps h) = some h := by
  rw [rowHeadersVal, if_neg (Json.dumps_ne_empty h), Json.parse_dumps]

/-- After one insert, loading with limit 1 yields exactly the stored body of
the inserted entry, re-parsed by `try_json_load`. -/
theorem sqlite_cycle_body (nid : Nat) (rows : List Row) (e : Entry) :
    (load_history_sqlite (save_history_sqlite (SqliteDB.store nid rows) e) 1).map
        LoadedEntry.body = [try_json_load (storedBody e.body)] := by
  show (loadRows (((rows ++ [mkRow nid e]).reverse).take 1)).map _ = _
  rw [List.reverse_append]
  simp only [List.reverse_singleton, List.singleton_append, List.take_succ_cons,
    List.take_zero]
  rw [loadRows]
  have hh : rowHeadersVal (mkRow nid e).headers = some e.headers := by
    show rowHeadersVal (Json.dumps e.headers) = _
    exact rowHeadersVal_dumps e.headers
  rw [hh]
  simp only [loadRows, List.map_cons, List.map_nil]
  rfl

/-! ### C1: the transmitted payload -/

/-- Claim C1 (as stated) is false: a POST body input that is a JSON string
literal is parsed, and the string value — not the literal input — is
transmitted: for input `"hi"` (five characters, quotes included) the
payload is `hi`. -/
theorem c1_counterexample :
    transmittedPayload Method.POST ("\"hi\"") = some ("hi") ∧
      ¬transmittedPayload Method.POST ("\"hi\"") = some ("\"hi\"") := by
  constructor
  · rfl
  · intro h
    rw [show transmittedPayload Method.POST ("\"hi\"") = some ("hi") from rfl] at h
    exact absurd (Option.some.inj h) (by decide)

/-- Claim C1, amended: GET/DELETE transmit no payload; for POST/PUT a body
parsing as an object or array is transmitted as its canonical JSON
encoding; a body parsing as a JSON string is transmitted as that string's
value (unquoted); an empty body or JSON `null` transmits no payload; a body
parsing as a JSON boolean or number has no well-defined string payload (the
parsed Python value is handed to the transport, which rejects it); only a
body that is not valid JSON is transmitted as the literal input string. -/
theorem c1_transmitted_payload :
    (∀ b : String, transmittedPayload Method.GET b = some ("") ∧
      transmittedPayload Method.DELETE b = some ("")) ∧
    (∀ (m : Method) (b : String) (v : Json), (m = Method.POST ∨ m = Method.PUT) →
      Json.parse b = some v →
      ((∃ l, v = Json.arr l) ∨ (∃ ms, v = Json.obj ms)) →
      transmittedPayload m b = some (Json.dumps v)) ∧
    (∀ (m : Method) (b : String), (m = Method.POST ∨ m = Method.PUT) →
      Json.parse b = none → transmittedPayload m b = some b) ∧
    (∀ (m : Method) (b s : String), (m = Method.POST ∨ m = Method.PUT) →
      Json.parse b = some (Json.str s) → transmittedPayload m b = some s) ∧
    (∀ (m : Method) (b : String), (m = Method.POST ∨ m = Method.PUT) →
      (b = "" ∨ Json.parse b = some Json.null) →
      transmittedPayload m b = some ("")) ∧
    (∀ (m : Method) (b : String) (v : Json), (m = Method.POST ∨ m = Method.PUT) →
      Json.parse b = some v →
      ((∃ x, v = Json.bool x) ∨ (∃ n, v = Json.num n)) →
      transmittedPayload m b = none) := by
  refine ⟨fun b => ⟨rfl, rfl⟩, ?_, ?_, ?_, ?_, ?_⟩
  · rintro m b v (rfl | rfl) hp (⟨l, rfl⟩ | ⟨ms, rfl⟩) <;>
      rw [transmittedPayload, bodyForReq, if_neg (parse_some_ne_empty hp), hp] <;> rfl
  · rintro m b (rfl | rfl) hp <;> by_cases hb : b = ""
    · subst hb; rfl
    · rw [transmittedPayload, bodyForReq, if_neg hb, hp]; rfl
    · subst hb; rfl
    · rw [transmittedPayload, bodyForReq, if_neg hb, hp]; rfl
  · rintro m b s (rfl | rfl) hp <;>
      rw [transmittedPayload, bodyForReq, if_neg (parse_some_ne_empty hp), hp] <;> rfl
  · rintro m b (rfl | rfl) (rfl | hp)
    · rfl
    · rw [transmittedPayload, bodyForReq, if_neg (parse_some_ne_empty hp), hp]; rfl
    · rfl
    · rw [transmittedPayload, bodyForReq, if_neg (parse_some_ne_empty hp), hp]; rfl
  · rintro m b v (rfl | rfl) hp (⟨x, rfl⟩ | ⟨n, rfl⟩) <;>
      rw [transmittedPayload, bodyForReq, if_neg (parse_some_ne_empty hp), hp] <;> rfl

/-- Witness for `c1_transmitted_payload` at concrete inputs. -/
theorem c1_transmitted_payload_witness :
    transmittedPayload Method.GET ("zzz") = some ("") ∧
      transmittedPayload Method.POST ("[1]") = some (Json.dumps (Json.arr [Json.num 1])) ∧
      transmittedPayload Method.PUT ("plain text") = some ("plain text") :=
  ⟨(c1_transmitted_payload.1 ("zzz")).1,
    c1_transmitted_payload.2.1 Method.POST ("[1]") (Json.arr [Json.num 1])
      (Or.inl rfl) rfl (Or.inl ⟨[Json.num 1], rfl⟩),
    c1_transmitted_payload.2.2.1 Method.PUT ("plain text") (Or.inr rfl) rfl⟩

/-! ### C2: header validation -/

/-- Claim C2: non-empty header input parsing as a JSON object is used as the
header mapping; valid-but-non-object or invalid JSON fails validation (a
`notObject` ValueError or the parser's failure, both reported to the user),
and then no `requests.request` call is attempted and nothing is saved; an
empty header input yields the empty mapping. -/
theorem c2_header_validation :
    parseHeadersInput ("") = Except.ok [] ∧
    (∀ (s : String) (kvs : List (String × Json)),
      Json.parse s = some (Json.obj kvs) → parseHeadersInput s = Except.ok kvs) ∧
    (∀ (s : String) (v : Json), Json.parse s = some v →
      (∀ kvs, ¬v = Json.obj kvs) →
      parseHeadersInput s = Except.error HdrError.notObject) ∧
    (∀ s : String, ¬s = "" → Json.parse s = none →
      parseHeadersInput s = Except.error HdrError.parseFailure) ∧
    (∀ (m : Method) (urlRaw hdrRaw bodyRaw ts : String) (el : Int)
      (transport : RequestCall → Except String HttpResp) (err : HdrError),
      ¬pyStrip urlRaw = "" →
      parseHeadersInput (pyStrip hdrRaw) = Except.error err →
      sendRequestThread m urlRaw hdrRaw bodyRaw ts el transport =
        { outcome := Outcome.invalidHeaders err, attempts := [], saved := none }) := by
  refine ⟨rfl, ?_, ?_, ?_, ?_⟩
  · intro s kvs hp
    rw [parseHeadersInput, if_neg (parse_some_ne_empty hp), hp]
  · intro s v hp hno
    cases v with
    | obj ms => exact absurd rfl (hno ms)
    | null => rw [parseHeadersInput, if_neg (parse_some_ne_empty hp), hp]
    | bool x => rw [parseHeadersInput, if_neg (parse_some_ne_empty hp), hp]
    | num n => rw [parseHeadersInput, if_neg (parse_some_ne_empty hp), hp]
    | str t => rw [parseHeadersInput, if_neg (parse_some_ne_empty hp), hp]
    | arr l => rw [parseHeadersInput, if_neg (parse_some_ne_empty hp), hp]
  · intro s hs hp
    rw [parseHeadersInput, if_neg hs, hp]
  · intro m urlRaw hdrRaw bodyRaw ts el transport err hurl herr
    simp only [sendRequestThread]
    rw [if_neg hurl, herr]

/-- Witness for `c2_header_validation` at concrete inputs. -/
theorem c2_header_validation_witness :
    parseHeadersInput ("{}") = Except.ok [] ∧
      parseHeadersInput ("[1]") = Except.error HdrError.notObject ∧
      parseHeadersInput ("oops") = Except.error HdrError.parseFailure ∧
      sendRequestThread Method.GET ("http://x") ("[1]") ("") ("t") 0
          (fun _ => Except.ok (HttpResp.mk 200 (""))) =
        { outcome := Outcome.invalidHeaders HdrError.notObject, attempts := [],
          saved := none } :=
  ⟨c2_header_validation.2.1 ("{}") [] rfl,
    c2_header_validation.2.2.1 ("[1]") (Json.arr [Json.num 1]) rfl
      (fun kvs h => Json.noConfusion h),
    c2_header_validation.2.2.2.1 ("oops") (by decide) rfl,
    c2_header_validation.2.2.2.2 Method.GET ("http://x") ("[1]") ("") ("t") 0
      (fun _ => Except.ok (HttpResp.mk 200 (""))) HdrError.notObject (by decide) rfl⟩

/-! ### C3: load -/

theorem loadRows_length_le (rs : List Row) : (loadRows rs).length ≤ rs.length := by
  induction rs with
  | nil => simp [loadRows]
  | cons r rs ih =>
    rw [loadRows]
    cases rowHeadersVal r.headers with
    | none => simp
    | some h =>
      simp only [List.length_cons]
      omega

theorem pyTakeLast_nil {α : Type} (n : Nat) : pyTakeLast ([] : List α) n = [] := by
  rw [pyTakeLast]
  split_ifs <;> simp

theorem loadRows_map_id_prefix (rs : List Row) :
    ∃ t, rs.map Row.id = (loadRows rs).map LoadedEntry.id ++ t := by
  induction rs with
  | nil => exact ⟨[], rfl⟩
  | cons r rs ih =>
    rw [loadRows]
    cases rowHeadersVal r.headers with
    | none => exact ⟨(r :: rs).map Row.id, rfl⟩
    | some h =>
      obtain ⟨t, ht⟩ := ih
      exact ⟨t, by simp only [List.map_cons, ht, List.cons_append]; rfl⟩

/-- Loading a well-formed flat file returns the stored entries newest
first, truncated to any positive limit. -/
theorem load_json_dumps_arr (l : List Json) (n : Nat) (hn : 1 ≤ n) :
    load_history_json (some (Json.dumps (Json.arr l))) n = l.reverse.take n := by
  show (match Json.parse (Json.dumps (Json.arr l)) with
    | some (Json.arr data) => (pyTakeLast data n).reverse
    | some (Json.str t) =>
      ((pyTakeLast t.data n).reverse).map (fun c => Json.str (String.mk [c]))
    | _ => []) = l.reverse.take n
  rw [Json.parse_dumps]
  show (pyTakeLast l n).reverse = l.reverse.take n
  rw [pyTakeLast, if_neg (by omega)]
  rw [List.reverse_reverse]

/-- Scanning rows stops at the first row whose headers fail to decode: the
rows after it contribute nothing, and the result is exactly the result for
the preceding rows. -/
theorem loadRows_append_fail : ∀ (rs1 : List Row) (bad : Row) (rs2 : List Row),
    rowHeadersVal bad.headers = none →
    loadRows (rs1 ++ bad :: rs2) = loadRows rs1
  | [], bad, rs2 => fun h => by
    have hb : loadRows (bad :: rs2) = [] := by
      rw [loadRows, h]
    rw [List.nil_append, hb]
    rfl
  | r :: rs1, bad, rs2 => fun h => by
    rw [List.cons_append, loadRows, loadRows]
    cases hr : rowHeadersVal r.headers with
    | none => rfl
    | some hv => rw [loadRows_append_fail rs1 bad rs2 h]

/-- When every row's headers decode, the scan returns one entry per row, in
order, each built by `rowEntry` from its row. -/
theorem loadRows_all_ok : ∀ rs : List Row,
    (∀ r ∈ rs, ¬rowHeadersVal r.headers = none) →
    loadRows rs = rs.map (fun r => rowEntry r ((rowHeadersVal r.headers).getD (Json.obj [])))
  | [] => fun _ => rfl
  | r :: rs => fun h => by
    cases hr : rowHeadersVal r.headers with
    | none => exact absurd hr (h r (by simp))
    | some hv =>
      rw [loadRows, hr, loadRows_all_ok rs (fun x hx => h x (by simp [hx]))]
      rw [List.map_cons, hr]
      rfl

/-- Claim C3, amended: load never raises (it is a total function here, the
Python `try`/`except` catching everything).  The relational backend returns
at most `n` entries for every limit `n`, the flat-file backend for every
limit `n ≥ 1` — at limit `0` Python's `data[-0:]` slice is the whole list
(see the counterexample).  A missing store and (for the flat-file backend)
undecodable contents yield the empty sequence; the relational backend
returns the rows decoded before a row-level failure: when the scanned
window (newest first, limited to `n`) splits as `rs1 ++ bad :: rs2` with
`bad` the first undecodable row, the result is the scan of `rs1` alone,
which is one entry per row when all of `rs1` decode.  Most-recent-first:
the flat-file backend returns exactly the last-saved entries, newest first,
and the relational backend returns entries with strictly decreasing ids
whenever the table's ids are increasing, as AUTOINCREMENT guarantees. -/
theorem c3_load_limit :
    (∀ (db : SqliteDB) (n : Nat), (load_history_sqlite db n).length ≤ n) ∧
    (∀ n : Nat, load_history_sqlite SqliteDB.missing n = [] ∧
      load_history_sqlite SqliteDB.fileNoTable n = [] ∧
      load_history_json none n = []) ∧
    (∀ (l : List Json) (n : Nat), 1 ≤ n →
      load_history_json (some (Json.dumps (Json.arr l))) n = l.reverse.take n) ∧
    (∀ (s : String) (n : Nat), Json.parse s = none →
      load_history_json (some s) n = []) ∧
    (∀ (nid n : Nat) (rows rs1 rs2 : List Row) (bad : Row),
      (rows.reverse).take n = rs1 ++ bad :: rs2 →
      rowHeadersVal bad.headers = none →
      load_history_sqlite (SqliteDB.store nid rows) n = loadRows rs1) ∧
    (∀ rs1 : List Row, (∀ r ∈ rs1, ¬rowHeadersVal r.headers = none) →
      loadRows rs1 =
        rs1.map (fun r => rowEntry r ((rowHeadersVal r.headers).getD (Json.obj [])))) ∧
    (∀ (nid : Nat) (rows : List Row) (n : Nat),
      rows.Pairwise (fun a b => a.id < b.id) →
      (load_history_sqlite (SqliteDB.store nid rows) n).Pairwise
        (fun a b => b.id < a.id)) := by
  refine ⟨?_, fun n => ⟨rfl, rfl, rfl⟩, ?_, ?_, ?_, loadRows_all_ok, ?_⟩
  · intro db n
    cases db with
    | missing => simp [load_history_sqlite]
    | fileNoTable => simp [load_history_sqlite]
    | store nid rows =>
      calc (loadRows ((rows.reverse).take n)).length
          ≤ ((rows.reverse).take n).length := loadRows_length_le _
        _ ≤ n := by simp
  · exact load_json_dumps_arr
  · intro s n hp
    show (match Json.parse s with
      | some (Json.arr data) => (pyTakeLast data n).reverse
      | some (Json.str t) =>
        ((pyTakeLast t.data n).reverse).map (fun c => Json.str (String.mk [c]))
      | _ => []) = []
    rw [hp]
  · intro nid n rows rs1 rs2 bad hsplit hbad
    show loadRows ((rows.reverse).take n) = loadRows rs1
    rw [hsplit]
    exact loadRows_append_fail rs1 bad rs2 hbad
  · intro nid rows n hrows
    show List.Pairwise _ (loadRows ((rows.reverse).take n))
    obtain ⟨t, ht⟩ := loadRows_map_id_prefix ((rows.reverse).take n)
    have hidrows : (((rows.reverse).take n).map Row.id).Pairwise
        (fun a b => b < a) := by
      rw [List.pairwise_map]
      have h1 : rows.reverse.Pairwise (fun a b => b.id < a.id) := by
        rw [List.pairwise_reverse]
        exact hrows
      exact h1.sublist (List.take_sublist n rows.reverse)
    rw [ht] at hidrows
    exact List.pairwise_map.mp (List.pairwise_append.mp hidrows).1

/-- Claim C3 (as stated) is false at limit `0`: the flat-file backend's
`data[-0:]` slice is the whole list, so a store holding one entry returns
one entry, more than the limit. -/
theorem c3_counterexample :
    load_history_json (some ("[1]")) 0 = [Json.num 1] ∧
      ¬(load_history_json (some ("[1]")) 0).length ≤ 0 := by
  constructor
  · rfl
  · decide

/-- Witness for `c3_load_limit` at concrete inputs, including a two-row
store whose older row (scanned second) has undecodable headers. -/
theorem c3_load_limit_witness :
    load_history_json (some (Json.dumps (Json.arr [Json.num 1, Json.num 2]))) 1 =
      ([Json.num 1, Json.num 2]).reverse.take 1 ∧
    load_history_json (some ("oops")) 7 = [] ∧
    load_history_sqlite (SqliteDB.store 3
        [Row.mk 1 Method.GET ("u") ("nope") ("") 200 1 ("t"),
          Row.mk 2 Method.GET ("u") ("") ("") 200 1 ("t")]) 2 =
      loadRows [Row.mk 2 Method.GET ("u") ("") ("") 200 1 ("t")] ∧
    loadRows [Row.mk 2 Method.GET ("u") ("") ("") 200 1 ("t")] =
      [Row.mk 2 Method.GET ("u") ("") ("") 200 1 ("t")].map
        (fun r => rowEntry r ((rowHeadersVal r.headers).getD (Json.obj []))) :=
  ⟨c3_load_limit.2.2.1 [Json.num 1, Json.num 2] 1 (by decide),
    c3_load_limit.2.2.2.1 ("oops") 7 rfl,
    c3_load_limit.2.2.2.2.1 3 2
      [Row.mk 1 Method.GET ("u") ("nope") ("") 200 1 ("t"),
        Row.mk 2 Method.GET ("u") ("") ("") 200 1 ("t")]
      [Row.mk 2 Method.GET ("u") ("") ("") 200 1 ("t")] []
      (Row.mk 1 Method.GET ("u") ("nope") ("") 200 1 ("t")) rfl rfl,
    c3_load_limit.2.2.2.2.2.1 [Row.mk 2 Method.GET ("u") ("") ("") 200 1 ("t")]
      (by
        intro r hr h
        rw [List.mem_singleton] at hr
        subst hr
        exact Option.noConfusion h)⟩

/-! ### C4 and C5: the save/load body roundtrip -/

theorem try_json_load_parsed {s : String} {v : Json} (h : Json.parse s = some v) :
    try_json_load s = v := by
  rw [try_json_load, if_neg (parse_some_ne_empty h), h]

theorem try_json_load_raw {s : String} (h : Json.parse s = none) :
    try_json_load s = Json.str s := by
  by_cases hs : s = ""
  · subst hs
    rfl
  · rw [try_json_load, if_neg hs, h]

/-- Claim C4: through the relational backend, a structured body (object or
array) is stored as its JSON encoding and reloads deep-equal; a plain-text
body that is not valid JSON is stored as itself and reloads as the
identical string. -/
theorem c4_body_roundtrip :
    (∀ (nid : Nat) (rows : List Row) (e : Entry) (v : Json), e.body = v →
      ((∃ l, v = Json.arr l) ∨ (∃ ms, v = Json.obj ms)) →
      (load_history_sqlite (save_history_sqlite (SqliteDB.store nid rows) e) 1).map
        LoadedEntry.body = [v]) ∧
    (∀ (nid : Nat) (rows : List Row) (e : Entry) (s : String),
      e.body = Json.str s → Json.parse s = none →
      (load_history_sqlite (save_history_sqlite (SqliteDB.store nid rows) e) 1).map
        LoadedEntry.body = [Json.str s]) := by
  constructor
  · rintro nid rows e v hb (⟨l, rfl⟩ | ⟨ms, rfl⟩) <;>
      rw [sqlite_cycle_body, hb, storedBody, try_json_load_dumps]
  · rintro nid rows e s hb hp
    rw [sqlite_cycle_body, hb, storedBody, try_json_load_raw hp]

/-- Witness for `c4_body_roundtrip` at concrete inputs. -/
theorem c4_body_roundtrip_witness :
    (load_history_sqlite (save_history_sqlite (SqliteDB.store 1 [])
        (Entry.mk Method.POST ("u") (Json.obj []) (Json.arr [Json.num 1]) 200 1 ("t")))
      1).map LoadedEntry.body = [Json.arr [Json.num 1]] ∧
    (load_history_sqlite (save_history_sqlite (SqliteDB.store 1 [])
        (Entry.mk Method.POST ("u") (Json.obj []) (Json.str ("plain")) 200 1 ("t")))
      1).map LoadedEntry.body = [Json.str ("plain")] :=
  ⟨c4_body_roundtrip.1 1 []
      (Entry.mk Method.POST ("u") (Json.obj []) (Json.arr [Json.num 1]) 200 1 ("t"))
      (Json.arr [Json.num 1]) rfl (Or.inl ⟨[Json.num 1], rfl⟩),
    c4_body_roundtrip.2 1 []
      (Entry.mk Method.POST ("u") (Json.obj []) (Json.str ("plain")) 200 1 ("t"))
      ("plain") rfl rfl⟩

/-- Claim C5: a body that is a *string* whose text is valid JSON for a
structured value is stored as that text and reloads as the parsed
structure, not the original string — the documented lossy asymmetry. -/
theorem c5_json_looking_string :
    ∀ (nid : Nat) (rows : List Row) (e : Entry) (s : String) (v : Json),
      e.body = Json.str s → Json.parse s = some v →
      ((∃ l, v = Json.arr l) ∨ (∃ ms, v = Json.obj ms)) →
      (load_history_sqlite (save_history_sqlite (SqliteDB.store nid rows) e) 1).map
          LoadedEntry.body = [v] ∧ ¬v = Json.str s := by
  rintro nid rows e s v hb hp hst
  constructor
  · rw [sqlite_cycle_body, hb, storedBody, try_json_load_parsed hp]
  · rcases hst with ⟨l, rfl⟩ | ⟨ms, rfl⟩
    · exact fun h => Json.noConfusion h
    · exact fun h => Json.noConfusion h

/-- Witness for `c5_json_looking_string` at a concrete input. -/
theorem c5_json_looking_string_witness :
    (load_history_sqlite (save_history_sqlite (SqliteDB.store 1 [])
        (Entry.mk Method.POST ("u") (Json.obj []) (Json.str ("[1]")) 200 1 ("t")))
      1).map LoadedEntry.body = [Json.arr [Json.num 1]] ∧
      ¬Json.arr [Json.num 1] = Json.str ("[1]") :=
  c5_json_looking_string 1 []
    (Entry.mk Method.POST ("u") (Json.obj []) (Json.str ("[1]")) 200 1 ("t"))
    ("[1]") (Json.arr [Json.num 1]) rfl rfl (Or.inl ⟨[Json.num 1], rfl⟩)

/-! ### C6: flat-file retention cap -/

theorem pyTakeLast_absorb {α : Type} (A B : List α) (n : Nat) :
    pyTakeLast (pyTakeLast A n ++ B) n = pyTakeLast (A ++ B) n := by
  by_cases h : n = 0
  · subst h
    rw [pyTakeLast, if_pos rfl, pyTakeLast, if_pos rfl, pyTakeLast, if_pos rfl]
  · rw [pyTakeLast, if_neg h, pyTakeLast, if_neg h, pyTakeLast, if_neg h]
    rw [List.reverse_append, List.reverse_append, List.reverse_reverse]
    rw [List.take_append_eq_append_take, List.take_append_eq_append_take,
      List.take_take]
    rw [Nat.min_eq_left (Nat.sub_le n _)]

theorem pyTakeLast_idem {α : Type} (A : List α) (n : Nat) :
    pyTakeLast (pyTakeLast A n) n = pyTakeLast A n := by
  have h := pyTakeLast_absorb A [] n
  simpa using h

theorem pyTakeLast_length_le {α : Type} (A : List α) (n : Nat) (hn : 1 ≤ n) :
    (pyTakeLast A n).length ≤ n := by
  rw [pyTakeLast, if_neg (by omega)]
  simp

theorem pyTakeLast_eq_drop {α : Type} (A : List α) (n : Nat) (h1 : 1 ≤ n)
    (_h2 : n ≤ A.length) : pyTakeLast A n = A.drop (A.length - n) := by
  rw [pyTakeLast, if_neg (by omega), List.take_reverse, List.reverse_reverse]

theorem save_json_step (acc : List Json) (e : Json) :
    save_history_json (some (Json.dumps (Json.arr acc))) e =
      some (Json.dumps (Json.arr (pyTakeLast (acc ++ [e]) 200))) := by
  show (match Json.parse (Json.dumps (Json.arr acc)) with
    | some (Json.arr data) => some (Json.dumps (Json.arr (pyTakeLast (data ++ [e]) 200)))
    | some _ => some (Json.dumps (Json.arr acc))
    | none => some (Json.dumps (Json.arr (pyTakeLast [e] 200)))) = _
  rw [Json.parse_dumps]

theorem save_json_fold : ∀ (l acc : List Json), pyTakeLast acc 200 = acc →
    List.foldl save_history_json (some (Json.dumps (Json.arr acc))) l =
      some (Json.dumps (Json.arr (pyTakeLast (acc ++ l) 200)))
  | [], acc, h => by rw [List.foldl_nil, List.append_nil, h]
  | e :: l, acc, h => by
    rw [List.foldl_cons, save_json_step]
    rw [save_json_fold l (pyTakeLast (acc ++ [e]) 200) (pyTakeLast_idem _ _)]
    rw [pyTakeLast_absorb]
    rw [List.append_assoc]
    rfl

/-- Folding saves from a nonexistent file always leaves the JSON encoding of
the last 200 entries saved. -/
theorem save_json_fold_none (e : Json) (l : List Json) :
    List.foldl save_history_json none (e :: l) =
      some (Json.dumps (Json.arr (pyTakeLast (e :: l) 200))) := by
  rw [List.foldl_cons]
  show List.foldl save_history_json
    (some (Json.dumps (Json.arr (pyTakeLast [e] 200)))) l = _
  rw [save_json_fold l (pyTakeLast [e] 200) (pyTakeLast_idem _ _), pyTakeLast_absorb]
  rfl

/-- Claim C6: the flat-file backend keeps at most the 200 most recent
entries, evicting oldest first; after 205 sequential saves exactly the last
200 remain and load returns them most-recent-first. -/
theorem c6_retention_cap :
    (∀ (e : Json) (l : List Json),
      List.foldl save_history_json none (e :: l) =
        some (Json.dumps (Json.arr (pyTakeLast (e :: l) 200))) ∧
      (pyTakeLast (e :: l) 200).length ≤ 200) ∧
    (∀ l : List Json, l.length = 205 →
      List.foldl save_history_json none l = some (Json.dumps (Json.arr (l.drop 5))) ∧
      load_history_json (List.foldl save_history_json none l) 200 = (l.drop 5).reverse) := by
  constructor
  · intro e l
    exact ⟨save_json_fold_none e l, pyTakeLast_length_le _ _ (by omega)⟩
  · intro l hlen
    obtain ⟨e, l', rfl⟩ : ∃ e l', l = e :: l' := by
      cases l with
      | nil => simp at hlen
      | cons e l' => exact ⟨e, l', rfl⟩
    have hfold : List.foldl save_history_json none (e :: l') =
        some (Json.dumps (Json.arr ((e :: l').drop 5))) := by
      rw [save_json_fold_none]
      rw [pyTakeLast_eq_drop _ _ (by omega) (by omega), hlen]
    refine ⟨hfold, ?_⟩
    rw [hfold]
    rw [load_json_dumps_arr ((e :: l').drop 5) 200 (by omega)]
    have hdroplen : ((e :: l').drop 5).length = 200 := by
      simp only [List.length_drop, hlen]
    rw [List.take_of_length_le (by rw [List.length_reverse, hdroplen])]

/-- Witness for `c6_retention_cap` at a concrete 205-entry history. -/
theorem c6_retention_cap_witness :
    load_history_json
        (List.foldl save_history_json none (List.replicate 205 Json.null)) 200 =
      ((List.replicate 205 Json.null).drop 5).reverse :=
  (c6_retention_cap.2 (List.replicate 205 Json.null) (by rw [List.length_replicate])).2

/-! ### C7: clear and fail-soft storage -/

/-- Claim C7: storage operations are total (every Python exception is caught
at lines 99, 129 and 153, so nothing propagates to the caller); clearing
leaves a store on which load yields the empty sequence, for both backends;
and a save onto undecodable-as-list flat-file contents fails softly,
leaving the file unchanged. -/
theorem c7_clear_and_fail_soft :
    (∀ (db : SqliteDB) (n : Nat), load_history_sqlite (clear_history_sqlite db) n = []) ∧
    (∀ (f : Option String) (n : Nat), load_history_json (clear_history_json f) n = []) ∧
    (∀ (s : String) (e v : Json), Json.parse s = some v →
      (∀ l, ¬v = Json.arr l) → save_history_json (some s) e = some s) := by
  refine ⟨?_, ?_, ?_⟩
  · intro db n
    cases db with
    | missing => rfl
    | fileNoTable => rfl
    | store nid rows =>
      show loadRows (([] : List Row).reverse.take n) = []
      simp only [List.reverse_nil, List.take_nil]
      rfl
  · intro f n
    cases f with
    | none => rfl
    | some s =>
      show (match Json.parse ("[]") with
        | some (Json.arr data) => (pyTakeLast data n).reverse
        | some (Json.str t) =>
          ((pyTakeLast t.data n).reverse).map (fun c => Json.str (String.mk [c]))
        | _ => []) = []
      rw [show Json.parse ("[]") = some (Json.arr []) from rfl]
      show (pyTakeLast ([] : List Json) n).reverse = []
      rw [pyTakeLast_nil]
      rfl
  · intro s e v hp hna
    show (match Json.parse s with
      | some (Json.arr data) => some (Json.dumps (Json.arr (pyTakeLast (data ++ [e]) 200)))
      | some _ => some s
      | none => some (Json.dumps (Json.arr (pyTakeLast [e] 200)))) = some s
    rw [hp]
    cases v with
    | arr l => exact absurd rfl (hna l)
    | null => rfl
    | bool x => rfl
    | num n => rfl
    | str t => rfl
    | obj ms => rfl

/-- Witness for `c7_clear_and_fail_soft` at concrete inputs. -/
theorem c7_clear_and_fail_soft_witness :
    load_history_sqlite (clear_history_sqlite (SqliteDB.store 3 [])) 5 = [] ∧
      load_history_json (clear_history_json (some ("[1]"))) 5 = [] ∧
      save_history_json (some ("{}")) Json.null = some ("{}") :=
  ⟨c7_clear_and_fail_soft.1 (SqliteDB.store 3 []) 5,
    c7_clear_and_fail_soft.2.1 (some ("[1]")) 5,
    c7_clear_and_fail_soft.2.2 ("{}") Json.null (Json.obj []) rfl
      (fun _ h => Json.noConfusion h)⟩

/-! ### C8, C9, C10: the request thread -/

/-- Claim C8: when the transport raises (connection error, timeout, DNS or
TLS failure — any `RequestException`), the failure is surfaced as a request
error carrying the underlying message, exactly one transport call was
attempted (no retry), and no history entry is passed to the store. -/
theorem c8_transport_failure :
    ∀ (m : Method) (urlRaw hdrRaw bodyRaw ts : String) (el : Int)
      (transport : RequestCall → Except String HttpResp) (msg : String)
      (kvs : List (String × Json)),
      ¬pyStrip urlRaw = "" →
      parseHeadersInput (pyStrip hdrRaw) = Except.ok kvs →
      (∀ c, transport c = Except.error msg) →
      (sendRequestThread m urlRaw hdrRaw bodyRaw ts el transport).outcome =
          Outcome.transportError msg ∧
        (sendRequestThread m urlRaw hdrRaw bodyRaw ts el transport).saved = none ∧
        (sendRequestThread m urlRaw hdrRaw bodyRaw ts el transport).attempts.length = 1 := by
  intro m urlRaw hdrRaw bodyRaw ts el transport msg kvs hurl hhdr htr
  simp only [sendRequestThread, if_neg hurl, hhdr, htr]
  exact ⟨trivial, trivial, rfl⟩

/-- Witness for `c8_transport_failure` at concrete inputs. -/
theorem c8_transport_failure_witness :
    (sendRequestThread Method.GET ("http://x") ("") ("") ("t") 0
        (fun _ => Except.error ("boom"))).outcome = Outcome.transportError ("boom") ∧
      (sendRequestThread Method.GET ("http://x") ("") ("") ("t") 0
        (fun _ => Except.error ("boom"))).saved = none ∧
      (sendRequestThread Method.GET ("http://x") ("") ("") ("t") 0
        (fun _ => Except.error ("boom"))).attempts.length = 1 :=
  c8_transport_failure Method.GET ("http://x") ("") ("") ("t") 0
    (fun _ => Except.error ("boom")) ("boom") [] (by decide) rfl (fun _ => rfl)

/-- Claim C9: an empty (after stripping) URL fails validation immediately:
no transport call is attempted, nothing is saved, no partial state change
occurs. -/
theorem c9_missing_url :
    ∀ (m : Method) (urlRaw hdrRaw bodyRaw ts : String) (el : Int)
      (transport : RequestCall → Except String HttpResp),
      pyStrip urlRaw = "" →
      sendRequestThread m urlRaw hdrRaw bodyRaw ts el transport =
        { outcome := Outcome.missingUrl, attempts := [], saved := none } := by
  intro m urlRaw hdrRaw bodyRaw ts el transport hurl
  simp only [sendRequestThread, if_pos hurl]

/-- Witness for `c9_missing_url` at a whitespace-only URL. -/
theorem c9_missing_url_witness :
    sendRequestThread Method.POST ("   ") ("") ("[1]") ("t") 0
        (fun _ => Except.ok (HttpResp.mk 200 (""))) =
      { outcome := Outcome.missingUrl, attempts := [], saved := none } :=
  c9_missing_url Method.POST ("   ") ("") ("[1]") ("t") 0
    (fun _ => Except.ok (HttpResp.mk 200 (""))) rfl

/-- Claim C10: with an empty body editor, `body_for_req` is Python `None`,
so the saved entry's body field is null; through the relational backend the
stored TEXT is `str(None) = "None"`, which is not valid JSON, so one
save/load cycle returns the body as the literal string `None`. -/
theorem c10_none_body :
    ∀ (m : Method) (urlRaw hdrRaw bodyRaw ts : String) (el : Int)
      (transport : RequestCall → Except String HttpResp) (resp : HttpResp)
      (kvs : List (String × Json)),
      ¬pyStrip urlRaw = "" →
      parseHeadersInput (pyStrip hdrRaw) = Except.ok kvs →
      pyStrip bodyRaw = "" →
      (∀ c, transport c = Except.ok resp) →
      ((sendRequestThread m urlRaw hdrRaw bodyRaw ts el transport).saved.map
          Entry.body = some Json.null) ∧
      (∀ (e : Entry) (nid : Nat) (rows : List Row),
        (sendRequestThread m urlRaw hdrRaw bodyRaw ts el transport).saved = some e →
        (load_history_sqlite (save_history_sqlite (SqliteDB.store nid rows) e) 1).map
          LoadedEntry.body = [Json.str ("None")]) := by
  intro m urlRaw hdrRaw bodyRaw ts el transport resp kvs hurl hhdr hbody htr
  have hsend : (sendRequestThread m urlRaw hdrRaw bodyRaw ts el transport).saved =
      some (Entry.mk m (pyStrip urlRaw) (Json.obj kvs) Json.null resp.status el ts) := by
    simp only [sendRequestThread, if_neg hurl, hhdr, htr]
    show some (Entry.mk _ _ _ (bodyForReq (pyStrip bodyRaw)) _ _ _) = _
    rw [hbody]
    rfl
  constructor
  · rw [hsend]
    rfl
  · intro e nid rows hse
    rw [hsend] at hse
    have he := Option.some.inj hse
    subst he
    rw [sqlite_cycle_body]
    rfl

/-- Witness for `c10_none_body` at concrete inputs. -/
theorem c10_none_body_witness :
    ((sendRequestThread Method.POST ("http://x") ("") ("") ("t") 0
        (fun _ => Except.ok (HttpResp.mk 200 ("")))).saved.map Entry.body =
      some Json.null) ∧
      (load_history_sqlite (save_history_sqlite (SqliteDB.store 1 [])
          (Entry.mk Method.POST ("http://x") (Json.obj []) Json.null 200 0 ("t"))) 1).map
        LoadedEntry.body = [Json.str ("None")] := by
  have h := c10_none_body Method.POST ("http://x") ("") ("") ("t") 0
    (fun _ => Except.ok (HttpResp.mk 200 (""))) (HttpResp.mk 200 ("")) []
    (by decide) rfl rfl (fun _ => rfl)
  exact ⟨h.1, h.2 (Entry.mk Method.POST ("http://x") (Json.obj []) Json.null 200 0 ("t"))
    1 [] rfl⟩

end ApiTester
